import Mathlib

/-!
Shallow embedding of the fishery-dashboard aggregation core
(src/src/App.tsx, src/unnamed/part_003, src/unnamed/part_004).

Conventions of the embedding:
* JavaScript numbers are modelled as exact rationals (`ℚ`); values produced
  by `Math.floor` are integers (`ℤ`).  All quantities the claims touch are
  integers far below 2^53, where JavaScript addition is exact.
* `Math.random()` draws are abstracted as explicit parameters; a hypothesis
  `0 ≤ r ∧ r < 1` states `Math.random`'s contract where a claim needs it.
* A JavaScript object used as a dictionary is modelled as an association
  list; property assignment prepends and lookup takes the most recent
  binding, which reproduces the object's observable lookup behaviour
  (no claim depends on enumeration order of these stores).
* Optional chaining `a?.[k]` is an `Option`-valued lookup; `x ?? d` is
  `Option.getD`; `x || 0` is `jsOrZero` below.
-/

namespace Fishary

/-! ## Geographic data model -/

/-- Administrative level of a feature (the `level` property). -/
inductive Level where
  | state
  | district
  | subDistrict
deriving DecidableEq, Repr

/-- One GeoJSON feature, restricted to the properties the aggregation
core reads: `shapeID`, `shapeName`, `level` and `geometry.type`. -/
structure Feature where
  shapeID : String
  shapeName : String
  level : Level
  geomType : String
deriving DecidableEq, Repr

/-! ## JavaScript object dictionaries -/

/-- JavaScript object property assignment `m[k] = v`, modelled so that a
later assignment shadows an earlier one under `jsGet`. -/
def jsAssign (m : List (String × α)) (k : String) (v : α) : List (String × α) :=
  (k, v) :: m

/-- JavaScript object property read `m[k]` (also `m?.[k]`): the most
recent assignment wins, an absent key yields `none` (undefined). -/
def jsGet (m : List (String × α)) (k : String) : Option α :=
  (m.find? (fun p => p.1 = k)).map (fun p => p.2)

theorem jsGet_assign_self (m : List (String × α)) (k : String) (v : α) :
    jsGet (jsAssign m k v) k = some v := by
  simp [jsGet, jsAssign, List.find?]

theorem jsGet_assign_ne (m : List (String × α)) (k k' : String) (v : α)
    (h : k' ≠ k) : jsGet (jsAssign m k v) k' = jsGet m k' := by
  have hd : (decide (k = k')) = false := decide_eq_false (fun h' => h (Eq.symm h'))
  simp [jsGet, jsAssign, List.find?, hd]

theorem jsGet_isSome_assign (m : List (String × α)) (k k' : String) (v : α)
    (h : (jsGet m k').isSome) : (jsGet (jsAssign m k v) k').isSome := by
  by_cases hk : k' = k
  · subst hk; simp [jsGet_assign_self]
  · rw [jsGet_assign_ne m k k' v hk]; exact h

/-- A key assigned somewhere while folding assignments over a list is
present in the final object. -/
theorem jsGet_isSome_foldl_assign {β : Type} (key : β → String) (val : β → α)
    (l : List β) (m : List (String × α)) (k : String)
    (h : (jsGet m k).isSome ∨ ∃ b ∈ l, key b = k) :
    (jsGet (l.foldl (fun acc b => jsAssign acc (key b) (val b)) m) k).isSome := by
  induction l generalizing m with
  | nil =>
    rcases h with h | ⟨b, hb, _⟩
    · exact h
    · exact absurd hb (List.not_mem_nil b)
  | cons x xs ih =>
    simp only [List.foldl_cons]
    apply ih
    rcases h with h | ⟨b, hb, hbk⟩
    · exact Or.inl (jsGet_isSome_assign _ _ _ _ h)
    · rcases List.mem_cons.mp hb with rfl | hmem
      · subst hbk; exact Or.inl (by simp [jsGet_assign_self])
      · exact Or.inr ⟨b, hmem, hbk⟩

/-- Every value readable from an object built by folding assignments is
either from the initial object or one of the assigned values. -/
theorem jsGet_foldl_assign_mem {β : Type} (key : β → String) (val : β → α)
    (l : List β) (m : List (String × α)) (k : String) (v : α)
    (h : jsGet (l.foldl (fun acc b => jsAssign acc (key b) (val b)) m) k = some v) :
    jsGet m k = some v ∨ ∃ b ∈ l, val b = v := by
  induction l generalizing m with
  | nil => exact Or.inl h
  | cons x xs ih =>
    simp only [List.foldl_cons] at h
    rcases ih _ h with hm | ⟨b, hb, hbv⟩
    · by_cases hk : k = key x
      · subst hk
        rw [jsGet_assign_self] at hm
        exact Or.inr ⟨x, List.mem_cons_self x xs, Option.some_injective _ hm⟩
      · rw [jsGet_assign_ne _ _ _ _ hk] at hm
        exact Or.inl hm
    · exact Or.inr ⟨b, List.mem_cons_of_mem x hb, hbv⟩

/-- JavaScript `x || 0` on an optional numeric read: `undefined`, `NaN`
and `0` are falsy and give `0`; any other number passes through. -/
def jsOrZero : Option ℚ → ℚ
  | none => 0
  | some v => if v = 0 then 0 else v

/-! ## Geography Store: the GeoJSON fetch effect (C7)

`fetch("/indianmap.geojson")` keeps only features whose `geometry.type`
is `"Polygon"` or `"MultiPolygon"`. -/

/-- The feature filter applied to the fetched GeoJSON payload before it
is stored in `polygonData` (src/src/App.tsx lines 519-526). -/
def filterArealFeatures (features : List Feature) : List Feature :=
  features.filter (fun f => f.geomType = "Polygon" ∨ f.geomType = "MultiPolygon")

/-- C7: after the geography payload is loaded, the retained feature
collection contains exactly the polygon/multipolygon features of the
input: every feature with any other geometry type (e.g. `"Point"`) is
excluded, and every polygon or multipolygon feature is kept. -/
theorem arealFilter_exact (features : List Feature) (f : Feature) :
    (f ∈ filterArealFeatures features ↔
      f ∈ features ∧ (f.geomType = "Polygon" ∨ f.geomType = "MultiPolygon")) ∧
    (f.geomType = "Point" → f ∉ filterArealFeatures features) := by
  constructor
  · simp [filterArealFeatures, List.mem_filter]
  · intro hp hmem
    simp only [filterArealFeatures, List.mem_filter, decide_eq_true_eq] at hmem
    rcases hmem.2 with h | h <;> rw [hp] at h <;> exact absurd h (by decide)

/-- Witness for C7: a point feature is dropped and a polygon feature is
kept by the areal filter on a concrete two-feature payload. -/
theorem arealFilter_exact_witness :
    (⟨"P1", "Point One", Level.state, "Point"⟩ : Feature) ∉
      filterArealFeatures
        [⟨"P1", "Point One", Level.state, "Point"⟩,
         ⟨"A1", "Area One", Level.state, "Polygon"⟩] ∧
    (⟨"A1", "Area One", Level.state, "Polygon"⟩ : Feature) ∈
      filterArealFeatures
        [⟨"P1", "Point One", Level.state, "Point"⟩,
         ⟨"A1", "Area One", Level.state, "Polygon"⟩] := by
  have h1 := arealFilter_exact
    [⟨"P1", "Point One", Level.state, "Point"⟩,
     ⟨"A1", "Area One", Level.state, "Polygon"⟩]
    ⟨"P1", "Point One", Level.state, "Point"⟩
  have h2 := arealFilter_exact
    [⟨"P1", "Point One", Level.state, "Point"⟩,
     ⟨"A1", "Area One", Level.state, "Polygon"⟩]
    ⟨"A1", "Area One", Level.state, "Polygon"⟩
  exact ⟨h1.2 rfl, h2.1.mpr ⟨by decide, Or.inl rfl⟩⟩

/-! ## Filter state and map resolution (C6)

The scheme/gender/year filter enums of src/src/App.tsx, the view-level
state, and the derivations that react to the map-resolution toggle. -/

/-- The scheme filter values (`SchemeKey`). -/
inductive Scheme where
  | all
  | PMMKSS
  | PMMSY
  | KCC
  | NFDP
deriving DecidableEq, Repr

/-- The gender filter values (`GenderKey`). -/
inductive Gender where
  | all
  | male
  | female
  | transgender
deriving DecidableEq, Repr

/-- The year filter values (`YearKey`). -/
inductive Year where
  | all
  | y2021
  | y2022
  | y2023
  | y2024
deriving DecidableEq, Repr

/-- The pieces of React state that hold the current filter selections and
the map resolution in src/src/App.tsx. -/
structure FilterState where
  selectedScheme : Scheme
  selectedGender : Gender
  selectedYear : Year
  mapView : Level
deriving DecidableEq, Repr

/-- The view-toggle button handler: `setMapView(v)` replaces only the
`mapView` field of the state. -/
def setMapView (s : FilterState) (v : Level) : FilterState :=
  { s with mapView := v }

/-- The derivation `filteredGeoJsonData` (src/src/App.tsx lines 557-576): the feature
set handed to the map for the current resolution. -/
def filteredGeoJsonFeatures (features : List Feature) : Level → List Feature
  | Level.state => features.filter (fun f => f.level = Level.state)
  | Level.district =>
      features.filter (fun f => f.level = Level.district) ++
      features.filter (fun f => f.level = Level.state)
  | Level.subDistrict =>
      features.filter (fun f => f.level = Level.subDistrict) ++
      features.filter (fun f => f.level = Level.district) ++
      features.filter (fun f => f.level = Level.state)

/-- An OpenLayers style record as built in `vectorLayer.setStyle`
(src/unnamed/part_003 lines 353-442): fill colour, stroke colour,
stroke width, z-index. -/
structure OlStyle where
  fillColor : String
  strokeColor : String
  strokeWidth : ℚ
  zIndex : ℚ
deriving DecidableEq, Repr

/-- The per-feature style function installed by `vectorLayer.setStyle`:
given the current map view, the feature's level and the computed fill
colour, return the style, or `none` when the callback returns `null`
(feature not rendered). -/
def styleFor (mapView : Level) (level : Level) (fillColor : String) : Option OlStyle :=
  match mapView with
  | Level.state =>
    match level with
    | Level.state => some ⟨fillColor, "#17202a", 1/2, 0⟩
    | _ => none
  | Level.district =>
    match level with
    | Level.district => some ⟨fillColor, "#fcf3cf", 7/10, 1⟩
    | Level.state => some ⟨"rgba(0,0,0,0)", "#17202a", 1, 2⟩
    | _ => none
  | Level.subDistrict =>
    match level with
    | Level.subDistrict => some ⟨fillColor, "#fcf3cf", 1/2, 1⟩
    | Level.district => some ⟨"rgba(0,0,0,0)", "#273746", 1, 3/2⟩
    | Level.state => some ⟨"rgba(0,0,0,0)", "#17202a", 2, 2⟩

/-- C6: switching resolution from state to district changes the rendered
set to exactly the district-level features plus the state-level features,
the latter drawn with a transparent fill as outline only; in state view
only state-level features are rendered; the scheme/gender/year filter
selections are untouched by the switch. -/
theorem district_switch_spec (s : FilterState) (features : List Feature) (fc : String) :
    (setMapView s Level.district).selectedScheme = s.selectedScheme ∧
    (setMapView s Level.district).selectedGender = s.selectedGender ∧
    (setMapView s Level.district).selectedYear = s.selectedYear ∧
    (setMapView s Level.district).mapView = Level.district ∧
    (∀ f : Feature, f ∈ filteredGeoJsonFeatures features Level.district ↔
      f ∈ features ∧ (f.level = Level.district ∨ f.level = Level.state)) ∧
    (∀ f : Feature, f ∈ filteredGeoJsonFeatures features Level.state ↔
      f ∈ features ∧ f.level = Level.state) ∧
    styleFor Level.district Level.state fc = some ⟨"rgba(0,0,0,0)", "#17202a", 1, 2⟩ ∧
    styleFor Level.district Level.district fc = some ⟨fc, "#fcf3cf", 7/10, 1⟩ ∧
    (∀ lvl, lvl ≠ Level.state → styleFor Level.state lvl fc = none) := by
  refine ⟨rfl, rfl, rfl, rfl, ?_, ?_, rfl, rfl, ?_⟩
  · intro f
    simp only [filteredGeoJsonFeatures, List.mem_append, List.mem_filter,
      decide_eq_true_eq]
    tauto
  · intro f
    simp [filteredGeoJsonFeatures, List.mem_filter]
  · intro lvl hlvl
    cases lvl with
    | state => exact absurd rfl hlvl
    | district => rfl
    | subDistrict => rfl

/-- Witness for C6 on a concrete state: the gender selection survives the
switch, a district feature is rendered in district view, and state view
hides district features. -/
theorem district_switch_spec_witness :
    (setMapView ⟨Scheme.all, Gender.all, Year.all, Level.state⟩
      Level.district).selectedGender = Gender.all ∧
    (⟨"D1", "DistOne", Level.district, "Polygon"⟩ : Feature) ∈
      filteredGeoJsonFeatures
        [⟨"D1", "DistOne", Level.district, "Polygon"⟩] Level.district ∧
    styleFor Level.state Level.district "#abc" = none := by
  have h := district_switch_spec ⟨Scheme.all, Gender.all, Year.all, Level.state⟩
    [⟨"D1", "DistOne", Level.district, "Polygon"⟩] "#abc"
  refine ⟨h.2.1, ?_, h.2.2.2.2.2.2.2.2 Level.district (by decide)⟩
  exact (h.2.2.2.2.1 ⟨"D1", "DistOne", Level.district, "Polygon"⟩).mpr
    ⟨List.mem_singleton.mpr rfl, Or.inl rfl⟩

/-! ## Per-feature colour lookup (C3)

`vectorLayer.setStyle` reads
`metricData?.[id]?.[demographicKey]?.[selectedMetric] || 0`
(src/unnamed/part_003 line 358).  The metric store is viewed through its
read interface: feature id, demographic key and indicator name to an
optional numeric value. -/

/-- The triple-nested optional-chaining read interface of `metricData`. -/
def MetricStore := String → String → String → Option ℚ

/-- The numeric value the style callback feeds to `getColor` for one
feature: the stored indicator, with `undefined` (and the other falsy
values) collapsed to `0` by `|| 0`. -/
def colorFor (store : MetricStore) (id key metric : String) : ℚ :=
  jsOrZero (store id key metric)

/-- C3: the colouring value equals the stored indicator when the entry
exists and is `0` when feature, key or indicator is absent; whenever the
store holds only non-negative values (as the generators guarantee) the
result is a non-negative rational, and the total function never throws. -/
theorem colorFor_spec (store : MetricStore) (id key metric : String)
    (hpos : ∀ v, store id key metric = some v → 0 ≤ v) :
    (∀ v, store id key metric = some v → colorFor store id key metric = v) ∧
    (store id key metric = none → colorFor store id key metric = 0) ∧
    0 ≤ colorFor store id key metric := by
  refine ⟨?_, ?_, ?_⟩
  · intro v hv
    simp only [colorFor, hv, jsOrZero]
    by_cases h0 : v = 0
    · simp [h0]
    · simp [h0]
  · intro hnone
    simp [colorFor, hnone, jsOrZero]
  · cases hread : store id key metric with
    | none => simp [colorFor, hread, jsOrZero]
    | some v =>
      have hv := hpos v hread
      simp only [colorFor, hread, jsOrZero]
      by_cases h0 : v = 0
      · simp [h0]
      · simpa [h0] using hv

/-- A two-entry store used to instantiate `colorFor_spec`: feature `A`
has `funds = 5000000` under `all_all_all` and nothing else. -/
def demoStore : MetricStore :=
  fun id key metric =>
    if id = "A" ∧ key = "all_all_all" ∧ metric = "funds" then some 5000000 else none

/-- Witness for C3: on `demoStore`, the present entry is returned as
stored and the absent `PMMKSS_male_2023` lookup gives `0`. -/
theorem colorFor_spec_witness :
    colorFor demoStore "A" "all_all_all" "funds" = 5000000 ∧
    colorFor demoStore "A" "PMMKSS_male_2023" "funds" = 0 := by
  constructor
  · exact (colorFor_spec demoStore "A" "all_all_all" "funds"
      (by intro v hv; simp [demoStore] at hv; norm_num [hv.symm])).1 5000000 (by simp [demoStore])
  · exact (colorFor_spec demoStore "A" "PMMKSS_male_2023" "funds"
      (by intro v hv; simp [demoStore] at hv)).2.1 (by simp [demoStore])

/-! ## KPI summary (C2)

`kpis` (src/src/App.tsx lines 595-616, identically src/unnamed/part_004
lines 788-815): over the features of the active level, collect the
defined indicator values, then floor the mean and take min and max;
all-zero when nothing is defined. -/

/-- The KPI triple `{average, min, max}`; `average` is `Math.floor`ed. -/
structure KpiResult where
  average : ℤ
  min : ℚ
  max : ℚ
deriving DecidableEq, Repr

/-- The `values` array of `kpis`: map the features at the active level to
their optional indicator reads and drop the `undefined` ones
(`.filter((value) => value !== undefined)`). -/
def kpiValues (store : MetricStore) (features : List Feature) (mv : Level)
    (key metric : String) : List ℚ :=
  ((features.filter (fun f => f.level = mv)).map
    (fun f => store f.shapeID key metric)).filterMap id

/-- The `kpis` derivation itself. -/
def kpis (store : MetricStore) (features : List Feature) (mv : Level)
    (key metric : String) : KpiResult :=
  match kpiValues store features mv key metric with
  | [] => ⟨0, 0, 0⟩
  | v :: vs =>
    ⟨⌊(v :: vs).sum / ((v :: vs).length : ℚ)⌋, vs.foldl min v, vs.foldl max v⟩

/-- Specification-side reading of "the defined indicator values at the
level", written as a single structural recursion for comparison with the
filter/map/filterMap pipeline of the code. -/
def definedValues (store : MetricStore) (features : List Feature) (mv : Level)
    (key metric : String) : List ℚ :=
  match features with
  | [] => []
  | f :: fs =>
    if f.level = mv then
      match store f.shapeID key metric with
      | some v => v :: definedValues store fs mv key metric
      | none => definedValues store fs mv key metric
    else definedValues store fs mv key metric

theorem kpiValues_eq_definedValues (store : MetricStore) (features : List Feature)
    (mv : Level) (key metric : String) :
    kpiValues store features mv key metric = definedValues store features mv key metric := by
  induction features with
  | nil => rfl
  | cons f fs ih =>
    by_cases hl : f.level = mv
    · cases hread : store f.shapeID key metric with
      | none =>
        simp [kpiValues, definedValues, hl, hread] at ih ⊢
        exact ih
      | some v =>
        simp [kpiValues, definedValues, hl, hread] at ih ⊢
        exact ih
    · simp [kpiValues, definedValues, hl] at ih ⊢
      exact ih

theorem foldl_min_le_start (l : List ℚ) (a : ℚ) : l.foldl min a ≤ a := by
  induction l generalizing a with
  | nil => exact le_refl a
  | cons x xs ih =>
    exact le_trans (ih (min a x)) (min_le_left a x)

theorem foldl_min_le_mem (l : List ℚ) (a x : ℚ) (hx : x ∈ l) : l.foldl min a ≤ x := by
  induction l generalizing a with
  | nil => exact absurd hx (List.not_mem_nil x)
  | cons y ys ih =>
    rcases List.mem_cons.mp hx with rfl | hmem
    · exact le_trans (foldl_min_le_start ys (min a x)) (min_le_right a x)
    · exact ih (min a y) hmem

theorem foldl_min_mem (l : List ℚ) (a : ℚ) : l.foldl min a = a ∨ l.foldl min a ∈ l := by
  induction l generalizing a with
  | nil => exact Or.inl rfl
  | cons x xs ih =>
    rcases ih (min a x) with h | h
    · rcases min_choice a x with hc | hc
      · exact Or.inl (by rw [List.foldl_cons, h, hc])
      · exact Or.inr (by rw [List.foldl_cons, h, hc]; exact List.mem_cons_self x xs)
    · exact Or.inr (List.mem_cons_of_mem x h)

theorem le_foldl_max_start (l : List ℚ) (a : ℚ) : a ≤ l.foldl max a := by
  induction l generalizing a with
  | nil => exact le_refl a
  | cons x xs ih =>
    exact le_trans (le_max_left a x) (ih (max a x))

theorem le_foldl_max_mem (l : List ℚ) (a x : ℚ) (hx : x ∈ l) : x ≤ l.foldl max a := by
  induction l generalizing a with
  | nil => exact absurd hx (List.not_mem_nil x)
  | cons y ys ih =>
    rcases List.mem_cons.mp hx with rfl | hmem
    · exact le_trans (le_max_right a x) (le_foldl_max_start ys (max a x))
    · exact ih (max a y) hmem

theorem foldl_max_mem (l : List ℚ) (a : ℚ) : l.foldl max a = a ∨ l.foldl max a ∈ l := by
  induction l generalizing a with
  | nil => exact Or.inl rfl
  | cons x xs ih =>
    rcases ih (max a x) with h | h
    · rcases max_choice a x with hc | hc
      · exact Or.inl (by rw [List.foldl_cons, h, hc])
      · exact Or.inr (by rw [List.foldl_cons, h, hc]; exact List.mem_cons_self x xs)
    · exact Or.inr (List.mem_cons_of_mem x h)

/-- C2: the KPI computation uses exactly the defined indicator values of
the active level (undefined reads are skipped, never coerced to `0`), its
average is the floored arithmetic mean of those values, its min and max
bound and are attained by them, the all-undefined case yields the zero
triple without failing, and prepending a feature whose read is undefined
leaves the result unchanged. -/
theorem kpis_spec (store : MetricStore) (features : List Feature) (mv : Level)
    (key metric : String) :
    kpiValues store features mv key metric = definedValues store features mv key metric ∧
    (definedValues store features mv key metric = [] →
      kpis store features mv key metric = ⟨0, 0, 0⟩) ∧
    (∀ v ∈ definedValues store features mv key metric,
      (kpis store features mv key metric).min ≤ v ∧
      v ≤ (kpis store features mv key metric).max) ∧
    (∀ v vs, definedValues store features mv key metric = v :: vs →
      (kpis store features mv key metric).average =
        ⌊(v :: vs).sum / ((v :: vs).length : ℚ)⌋ ∧
      (kpis store features mv key metric).min ∈ v :: vs ∧
      (kpis store features mv key metric).max ∈ v :: vs) ∧
    (∀ f : Feature, f.level = mv → store f.shapeID key metric = none →
      kpis store (f :: features) mv key metric = kpis store features mv key metric) := by
  have hvals := kpiValues_eq_definedValues store features mv key metric
  refine ⟨hvals, ?_, ?_, ?_, ?_⟩
  · intro hempty
    simp [kpis, hvals, hempty]
  · intro v hv
    rw [← hvals] at hv
    cases hcase : kpiValues store features mv key metric with
    | nil => rw [hcase] at hv; exact absurd hv (List.not_mem_nil v)
    | cons w ws =>
      rw [hcase] at hv
      constructor
      · show (kpis store features mv key metric).min ≤ v
        simp only [kpis, hcase]
        rcases List.mem_cons.mp hv with rfl | hmem
        · exact foldl_min_le_start ws v
        · exact foldl_min_le_mem ws w v hmem
      · show v ≤ (kpis store features mv key metric).max
        simp only [kpis, hcase]
        rcases List.mem_cons.mp hv with rfl | hmem
        · exact le_foldl_max_start ws v
        · exact le_foldl_max_mem ws w v hmem
  · intro v vs hcons
    rw [← hvals] at hcons
    refine ⟨?_, ?_, ?_⟩
    · simp [kpis, hcons]
    · simp only [kpis, hcons]
      rcases foldl_min_mem vs v with h | h
      · rw [h]; exact List.mem_cons_self v vs
      · exact List.mem_cons_of_mem v h
    · simp only [kpis, hcons]
      rcases foldl_max_mem vs v with h | h
      · rw [h]; exact List.mem_cons_self v vs
      · exact List.mem_cons_of_mem v h
  · intro f hl hread
    have : kpiValues store (f :: features) mv key metric =
        kpiValues store features mv key metric := by
      simp [kpiValues, hl, hread]
    simp [kpis, this]

/-- A feature list for the KPI witness: two states with values, one state
without a bag, one district. -/
def demoFeatures : List Feature :=
  [⟨"A", "Alpha", Level.state, "Polygon"⟩,
   ⟨"B", "Beta", Level.state, "MultiPolygon"⟩,
   ⟨"C", "Gamma", Level.state, "Polygon"⟩,
   ⟨"D", "Delta", Level.district, "Polygon"⟩]

/-- A store defining values for `A` and `B` only. -/
def demoKpiStore : MetricStore :=
  fun id key metric =>
    if key = "all_all_all" ∧ metric = "beneficiaries" then
      if id = "A" then some 100 else if id = "B" then some 31 else none
    else none

/-- Witness for C2: on the concrete store, the average is the floored
mean of the two defined values, both are bounded by min and max, and the
undefined features `C` and `D` are skipped rather than counted as zero. -/
theorem kpis_spec_witness :
    (kpis demoKpiStore demoFeatures Level.state "all_all_all" "beneficiaries").average = 65 ∧
    (kpis demoKpiStore demoFeatures Level.state "all_all_all" "beneficiaries").min ≤ 31 ∧
    (kpis demoKpiStore demoFeatures Level.state "other" "beneficiaries") = ⟨0, 0, 0⟩ := by
  have h := kpis_spec demoKpiStore demoFeatures Level.state "all_all_all" "beneficiaries"
  have h2 := kpis_spec demoKpiStore demoFeatures Level.state "other" "beneficiaries"
  refine ⟨?_, ?_, ?_⟩
  · have havg := (h.2.2.2.1 100 [31] (by decide)).1
    rw [havg, show ([(100 : ℚ), 31].sum / (([(100 : ℚ), 31].length : ℕ) : ℚ)) = 131 / 2 by
      norm_num, Int.floor_eq_iff]
    norm_num
  · exact ((h.2.2.1) 31 (by decide)).1
  · exact h2.2.1 (by decide)

/-! ## Bracket classification (C5)

The `brackets` tables (src/src/App.tsx lines 696-715) and the first-match
classification used by `pieData` (line 734):
`value >= b.min && (b.max === Infinity ? true : value < b.max)`. -/

/-- One bracket definition; `max = none` stands for `Infinity`. -/
structure Bracket where
  label : String
  min : ℚ
  max : Option ℚ
deriving DecidableEq, Repr

/-- The three metrics that have bracket tables. -/
inductive GenericMetric where
  | beneficiaries
  | funds
  | registrations
deriving DecidableEq, Repr

/-- The bracket tables of src/src/App.tsx (colours omitted: the claims
are about the numeric ranges). -/
def bracketsFor : GenericMetric → List Bracket
  | GenericMetric.beneficiaries =>
    [⟨"<2K", 0, some 2000⟩, ⟨"2K-3K", 2000, some 3000⟩,
     ⟨"3K-4K", 3000, some 4000⟩, ⟨">=4K", 4000, none⟩]
  | GenericMetric.funds =>
    [⟨"<30L", 0, some 3000000⟩, ⟨"30L-50L", 3000000, some 5000000⟩,
     ⟨"50L-80L", 5000000, some 8000000⟩, ⟨">=80L", 8000000, none⟩]
  | GenericMetric.registrations =>
    [⟨"<4K", 0, some 4000⟩, ⟨"4K-6K", 4000, some 6000⟩,
     ⟨"6K-8K", 6000, some 8000⟩, ⟨">=8K", 8000, none⟩]

/-- The predicate a value is tested against in `pieData`'s `.find`. -/
def bracketMatches (value : ℚ) (b : Bracket) : Bool :=
  decide (b.min ≤ value) &&
    (match b.max with
     | none => true
     | some m => decide (value < m))

/-- The classification: the first bracket the value matches. -/
def findBracket (bs : List Bracket) (value : ℚ) : Option Bracket :=
  bs.find? (bracketMatches value)

theorem bracketMatches_iff (value : ℚ) (b : Bracket) :
    bracketMatches value b = true ↔
      b.min ≤ value ∧ ∀ m, b.max = some m → value < m := by
  cases hm : b.max with
  | none => simp [bracketMatches, hm]
  | some m => simp [bracketMatches, hm]

/-- C5: on every finite non-negative value the classification is total
and unambiguous: exactly one bracket of the table matches, the first
match is returned, and the open-ended last bracket catches every value at
or above its minimum. -/
theorem brackets_total (g : GenericMetric) (v : ℚ) (h : 0 ≤ v) :
    (∃ b, findBracket (bracketsFor g) v = some b) ∧
    (bracketsFor g).countP (bracketMatches v) = 1 ∧
    (∀ b', (bracketsFor g).getLast? = some b' →
      b'.max = none ∧ (b'.min ≤ v → bracketMatches v b' = true)) := by
  have main : ∀ q2 q3 q4 : ℚ, 0 < q2 → q2 < q3 → q3 < q4 →
      ∀ l1 l2 l3 l4 : String,
      (∃ b, findBracket [⟨l1, 0, some q2⟩, ⟨l2, q2, some q3⟩,
        ⟨l3, q3, some q4⟩, ⟨l4, q4, none⟩] v = some b) ∧
      ([⟨l1, 0, some q2⟩, ⟨l2, q2, some q3⟩, ⟨l3, q3, some q4⟩,
        ⟨l4, q4, none⟩] : List Bracket).countP (bracketMatches v) = 1 := by
    intro q2 q3 q4 h2 h23 h34 l1 l2 l3 l4
    rcases lt_or_le v q2 with hv2 | hv2
    · have n2 : ¬ q2 ≤ v := not_le.mpr hv2
      have n3 : ¬ q3 ≤ v := not_le.mpr (lt_trans hv2 h23)
      have n4 : ¬ q4 ≤ v := not_le.mpr (lt_trans (lt_trans hv2 h23) h34)
      refine ⟨⟨⟨l1, 0, some q2⟩, ?_⟩, ?_⟩
      · simp [findBracket, List.find?, bracketMatches, h, hv2]
      · simp [List.countP_cons, bracketMatches, h, hv2, n2, n3, n4]
    · rcases lt_or_le v q3 with hv3 | hv3
      · have n3 : ¬ q3 ≤ v := not_le.mpr hv3
        have n4 : ¬ q4 ≤ v := not_le.mpr (lt_trans hv3 h34)
        have nlt : ¬ v < q2 := not_lt.mpr hv2
        refine ⟨⟨⟨l2, q2, some q3⟩, ?_⟩, ?_⟩
        · simp [findBracket, List.find?, bracketMatches, h, nlt, hv2, hv3]
        · simp [List.countP_cons, bracketMatches, h, nlt, hv2, hv3, n3, n4]
      · rcases lt_or_le v q4 with hv4 | hv4
        · have n4 : ¬ q4 ≤ v := not_le.mpr hv4
          have nlt2 : ¬ v < q2 := not_lt.mpr hv2
          have nlt3 : ¬ v < q3 := not_lt.mpr hv3
          refine ⟨⟨⟨l3, q3, some q4⟩, ?_⟩, ?_⟩
          · simp [findBracket, List.find?, bracketMatches, h, nlt2, nlt3, hv3, hv4]
          · simp [List.countP_cons, bracketMatches, h, nlt2, nlt3, hv3, hv4, n4]
        · have nlt2 : ¬ v < q2 := not_lt.mpr hv2
          have nlt3 : ¬ v < q3 := not_lt.mpr hv3
          have nlt4 : ¬ v < q4 := not_lt.mpr hv4
          refine ⟨⟨⟨l4, q4, none⟩, ?_⟩, ?_⟩
          · simp [findBracket, List.find?, bracketMatches, h, nlt2, nlt3, nlt4, hv4]
          · simp [List.countP_cons, bracketMatches, h, nlt2, nlt3, nlt4, hv4]
  have hlast : ∀ b', (bracketsFor g).getLast? = some b' →
      b'.max = none ∧ (b'.min ≤ v → bracketMatches v b' = true) := by
    intro b' hb'
    cases g <;>
      simp only [bracketsFor, List.getLast?_cons_cons, List.getLast?_singleton,
        Option.some.injEq] at hb' <;>
      subst hb' <;>
      exact ⟨rfl, fun hle => by simpa [bracketMatches] using hle⟩
  cases g with
  | beneficiaries =>
    have := main 2000 3000 4000 (by norm_num) (by norm_num) (by norm_num)
      "<2K" "2K-3K" "3K-4K" ">=4K"
    exact ⟨this.1, this.2, hlast⟩
  | funds =>
    have := main 3000000 5000000 8000000 (by norm_num) (by norm_num) (by norm_num)
      "<30L" "30L-50L" "50L-80L" ">=80L"
    exact ⟨this.1, this.2, hlast⟩
  | registrations =>
    have := main 4000 6000 8000 (by norm_num) (by norm_num) (by norm_num)
      "<4K" "4K-6K" "6K-8K" ">=8K"
    exact ⟨this.1, this.2, hlast⟩

/-- Witness for C5: the value 2500 is classified, uniquely, and the
open-ended bracket behaviour holds, for the beneficiaries table. -/
theorem brackets_total_witness :
    (∃ b, findBracket (bracketsFor GenericMetric.beneficiaries) (2500 : ℚ) = some b) ∧
    (bracketsFor GenericMetric.beneficiaries).countP (bracketMatches (2500 : ℚ)) = 1 ∧
    (∀ b', (bracketsFor GenericMetric.beneficiaries).getLast? = some b' →
      b'.max = none ∧ (b'.min ≤ (2500 : ℚ) → bracketMatches (2500 : ℚ) b' = true)) :=
  brackets_total GenericMetric.beneficiaries 2500 (by norm_num)

/-! ## Top-N bar-chart derivation (C4)

`barData` (src/src/App.tsx lines 747-810): rank the features of the
active level by the filter-independent `all_all_all` value of the
selected indicator, take the first ten, then read one sub-value per
member of the secondary category.  `Array.prototype.sort` with the
comparator `(a, b) => b.overallValue - a.overallValue` is required by the
ECMAScript specification to be a stable sort consistent with the
comparator; it is embedded as a stable descending insertion sort. -/

theorem jsOrZero_some (x : ℚ) : jsOrZero (some x) = x := by
  by_cases h : x = 0 <;> simp [jsOrZero, h]

/-- Scheme key strings as used in lookup keys. -/
def Scheme.str : Scheme → String
  | Scheme.all => "all"
  | Scheme.PMMKSS => "PMMKSS"
  | Scheme.PMMSY => "PMMSY"
  | Scheme.KCC => "KCC"
  | Scheme.NFDP => "NFDP"

/-- Gender key strings as used in lookup keys. -/
def Gender.str : Gender → String
  | Gender.all => "all"
  | Gender.male => "male"
  | Gender.female => "female"
  | Gender.transgender => "transgender"

/-- Year key strings as used in lookup keys. -/
def Year.str : Year → String
  | Year.all => "all"
  | Year.y2021 => "2021"
  | Year.y2022 => "2022"
  | Year.y2023 => "2023"
  | Year.y2024 => "2024"

/-- The memoized `demographicKey`: `${scheme}_${gender}_${year}`. -/
def demographicKeyStr (s : Scheme) (g : Gender) (y : Year) : String :=
  s.str ++ "_" ++ g.str ++ "_" ++ y.str

/-- One entry of the `sortedAreas` array: id, display name and the
overall ranking value. -/
structure AreaRow where
  id : String
  name : String
  overallValue : ℚ
deriving DecidableEq, Repr

/-- The map `overallMetricDataForSorting`: the filter-independent value of the
selected indicator, looked up under the `all_all_all` key, `?? 0`. -/
def overallMetricValue (store : MetricStore) (metric : String) (id : String) : ℚ :=
  (store id "all_all_all" metric).getD 0

/-- Insert one row into an already descending-sorted list: it goes after
every earlier row whose value is at least as large (giving stability) and
before the first strictly smaller one. -/
def insertDesc (x : AreaRow) : List AreaRow → List AreaRow
  | [] => [x]
  | y :: l => if y.overallValue < x.overallValue then x :: y :: l else y :: insertDesc x l

/-- The stable descending sort performed by
`.sort((a, b) => b.overallValue - a.overallValue)`. -/
def jsSortDesc (l : List AreaRow) : List AreaRow :=
  l.foldl (fun acc x => insertDesc x acc) []

theorem insertDesc_perm (x : AreaRow) (l : List AreaRow) :
    List.Perm (insertDesc x l) (x :: l) := by
  induction l with
  | nil => exact List.Perm.refl _
  | cons y l ih =>
    by_cases hc : y.overallValue < x.overallValue
    · simp [insertDesc, hc]
    · simp only [insertDesc, hc, if_false]
      exact List.Perm.trans (List.Perm.cons y ih) (List.Perm.swap x y l)

theorem mem_insertDesc {z x : AreaRow} {l : List AreaRow} :
    z ∈ insertDesc x l ↔ z = x ∨ z ∈ l := by
  rw [(insertDesc_perm x l).mem_iff, List.mem_cons]

theorem insertDesc_sorted (x : AreaRow) (l : List AreaRow)
    (hs : l.Pairwise (fun a b => b.overallValue ≤ a.overallValue)) :
    (insertDesc x l).Pairwise (fun a b => b.overallValue ≤ a.overallValue) := by
  induction l with
  | nil => simp [insertDesc]
  | cons y l ih =>
    rcases List.pairwise_cons.mp hs with ⟨hy, hl⟩
    by_cases hc : y.overallValue < x.overallValue
    · simp only [insertDesc, hc, if_true]
      refine List.pairwise_cons.mpr ⟨?_, hs⟩
      intro z hz
      rcases List.mem_cons.mp hz with rfl | hzl
      · exact le_of_lt hc
      · exact le_trans (hy z hzl) (le_of_lt hc)
    · simp only [insertDesc, hc, if_false]
      refine List.pairwise_cons.mpr ⟨?_, ih hl⟩
      intro z hz
      rcases mem_insertDesc.mp hz with rfl | hzl
      · exact not_lt.mp hc
      · exact hy z hzl

/-- Stability of one insertion, characterised through value-filters: a
row inserted into a descending-sorted list lands after every row of equal
value. -/
theorem insertDesc_filter (x : AreaRow) (l : List AreaRow) (c : ℚ)
    (hs : l.Pairwise (fun a b => b.overallValue ≤ a.overallValue)) :
    (insertDesc x l).filter (fun r => r.overallValue = c) =
      l.filter (fun r => r.overallValue = c) ++
        (if x.overallValue = c then [x] else []) := by
  induction l with
  | nil =>
    by_cases hx : x.overallValue = c <;> simp [insertDesc, hx]
  | cons y l ih =>
    rcases List.pairwise_cons.mp hs with ⟨hy, hl⟩
    by_cases hc : y.overallValue < x.overallValue
    · simp only [insertDesc, hc, if_true]
      by_cases hx : x.overallValue = c
      · have hyc : ¬ y.overallValue = c := by
          intro hyc; rw [hyc, ← hx] at hc; exact lt_irrefl _ hc
        have hlc : ∀ z ∈ l, ¬ z.overallValue = c := by
          intro z hz hzc
          have := hy z hz
          rw [hzc, ← hx] at this
          exact absurd (lt_of_lt_of_le hc this) (lt_irrefl _)
        have hfl : l.filter (fun r => r.overallValue = c) = [] := by
          rw [List.filter_eq_nil_iff]
          intro z hz
          simpa using hlc z hz
        simp [List.filter_cons, hx, hyc, hfl]
      · simp [List.filter_cons, hx]
    · simp only [insertDesc, hc, if_false]
      by_cases hyc : y.overallValue = c <;>
        simp [List.filter_cons, hyc, ih hl, List.append_assoc]

theorem foldl_insertDesc_sorted (l : List AreaRow) (acc : List AreaRow)
    (hacc : acc.Pairwise (fun a b => b.overallValue ≤ a.overallValue)) :
    (l.foldl (fun a x => insertDesc x a) acc).Pairwise
      (fun a b => b.overallValue ≤ a.overallValue) := by
  induction l generalizing acc with
  | nil => exact hacc
  | cons x xs ih => exact ih _ (insertDesc_sorted x acc hacc)

theorem jsSortDesc_sorted (l : List AreaRow) :
    (jsSortDesc l).Pairwise (fun a b => b.overallValue ≤ a.overallValue) :=
  foldl_insertDesc_sorted l [] (List.Pairwise.nil)

theorem foldl_insertDesc_perm (l : List AreaRow) (acc : List AreaRow) :
    List.Perm (l.foldl (fun a x => insertDesc x a) acc) (acc ++ l) := by
  induction l generalizing acc with
  | nil => simp
  | cons x xs ih =>
    simp only [List.foldl_cons]
    have h1 : List.Perm (insertDesc x acc ++ xs) (x :: (acc ++ xs)) := by
      simpa using List.Perm.append_right xs (insertDesc_perm x acc)
    exact List.Perm.trans (ih (insertDesc x acc))
      (List.Perm.trans h1 List.perm_middle.symm)

theorem jsSortDesc_perm (l : List AreaRow) : List.Perm (jsSortDesc l) l :=
  List.Perm.trans (foldl_insertDesc_perm l []) (by simp)

theorem foldl_insertDesc_filter (l : List AreaRow) (acc : List AreaRow) (c : ℚ)
    (hacc : acc.Pairwise (fun a b => b.overallValue ≤ a.overallValue)) :
    (l.foldl (fun a x => insertDesc x a) acc).filter (fun r => r.overallValue = c) =
      acc.filter (fun r => r.overallValue = c) ++
        l.filter (fun r => r.overallValue = c) := by
  induction l generalizing acc with
  | nil => simp
  | cons x xs ih =>
    simp only [List.foldl_cons]
    rw [ih _ (insertDesc_sorted x acc hacc), insertDesc_filter x acc c hacc]
    by_cases hx : x.overallValue = c <;>
      simp [List.filter_cons, hx, List.append_assoc]

/-- Stability of the whole sort: for every value, the rows holding that
value appear in the output in their original input order. -/
theorem jsSortDesc_filter (l : List AreaRow) (c : ℚ) :
    (jsSortDesc l).filter (fun r => r.overallValue = c) =
      l.filter (fun r => r.overallValue = c) :=
  by simpa using foldl_insertDesc_filter l [] c List.Pairwise.nil

/-- The secondary breakdown category of the bar chart. -/
inductive BarCategory where
  | scheme
  | gender
  | year
deriving DecidableEq, Repr

/-- The category member keys of the `switch` in `barData`. -/
def barKeys : BarCategory → List String
  | BarCategory.scheme => ["PMMKSS", "PMMSY", "KCC", "NFDP"]
  | BarCategory.gender => ["male", "female", "transgender"]
  | BarCategory.year => ["2021", "2022", "2023", "2024"]

/-- The `getDemographicKey` closure: the current key with exactly one dimension
swapped for the category member. -/
def barSubKey (cat : BarCategory) (s : Scheme) (g : Gender) (y : Year)
    (key : String) : String :=
  match cat with
  | BarCategory.scheme => key ++ "_" ++ g.str ++ "_" ++ y.str
  | BarCategory.gender => s.str ++ "_" ++ key ++ "_" ++ y.str
  | BarCategory.year => s.str ++ "_" ++ g.str ++ "_" ++ key

/-- The unsorted row list of `barData`: one row per feature of the active
level, valued by the `all_all_all` lookup (`|| 0` applied as in the
source). -/
def barBaseRows (store : MetricStore) (features : List Feature) (mv : Level)
    (metric : String) : List AreaRow :=
  (features.filter (fun f => f.level = mv)).map
    (fun f => ⟨f.shapeID,
      if f.shapeName = "" then "Unknown Area" else f.shapeName,
      jsOrZero (some (overallMetricValue store metric f.shapeID))⟩)

/-- The ranked row list before slicing. -/
def barRanked (store : MetricStore) (features : List Feature) (mv : Level)
    (metric : String) : List AreaRow :=
  jsSortDesc (barBaseRows store features mv metric)

/-- The `sortedAreas` array: ranking plus `.slice(0, 10)`. -/
def sortedAreas (store : MetricStore) (features : List Feature) (mv : Level)
    (metric : String) : List AreaRow :=
  (barRanked store features mv metric).take 10

/-- One final bar-chart row: area name plus one sub-value per category
member (`value ?? 0`). -/
structure BarRow where
  name : String
  values : List (String × ℚ)
deriving DecidableEq, Repr

/-- The `barData` derivation (non-PMMSY branch). -/
def barData (store : MetricStore) (features : List Feature) (mv : Level)
    (metric : String) (cat : BarCategory) (s : Scheme) (g : Gender) (y : Year) :
    List BarRow :=
  (sortedAreas store features mv metric).map (fun area =>
    ⟨area.name, (barKeys cat).map (fun k =>
      (k, (store area.id (barSubKey cat s g y k) metric).getD 0))⟩)

/-- C4: the bar-chart derivation returns at most ten rows; the ranking is
descending in the feature's filter-independent overall value (the
`all_all_all` lookup of the selected indicator), is a permutation of the
rows of the active level, and is stable: rows of equal overall value keep
their original feature order. -/
theorem barData_top10 (store : MetricStore) (features : List Feature) (mv : Level)
    (metric : String) (cat : BarCategory) (s : Scheme) (g : Gender) (y : Year) :
    (barData store features mv metric cat s g y).length ≤ 10 ∧
    (sortedAreas store features mv metric).Pairwise
      (fun a b => b.overallValue ≤ a.overallValue) ∧
    List.Perm (barRanked store features mv metric) (barBaseRows store features mv metric) ∧
    (∀ c : ℚ, (barRanked store features mv metric).filter (fun r => r.overallValue = c) =
      (barBaseRows store features mv metric).filter (fun r => r.overallValue = c)) ∧
    (∀ r ∈ barBaseRows store features mv metric,
      r.overallValue = (store r.id "all_all_all" metric).getD 0) := by
  refine ⟨?_, ?_, jsSortDesc_perm _, fun c => jsSortDesc_filter _ c, ?_⟩
  · calc (barData store features mv metric cat s g y).length
        = (sortedAreas store features mv metric).length := List.length_map _ _
      _ ≤ 10 := by
        simp only [sortedAreas]
        exact List.length_take_le 10 (barRanked store features mv metric)
  · exact List.Pairwise.sublist (List.take_sublist 10 _) (jsSortDesc_sorted _)
  · intro r hr
    simp only [barBaseRows, List.mem_map] at hr
    rcases hr with ⟨f, _, rfl⟩
    simp [jsOrZero_some, overallMetricValue]

/-- Witness for C4 at a concrete store: three state features, two tied on
the overall value; the ranked list keeps the tied features in original
order and every bound of the claim holds. -/
theorem barData_top10_witness :
    (barData demoKpiStore demoFeatures Level.state "beneficiaries"
      BarCategory.gender Scheme.all Gender.all Year.all).length ≤ 10 ∧
    (barRanked demoKpiStore demoFeatures Level.state "beneficiaries").filter
        (fun r => r.overallValue = 0) =
      (barBaseRows demoKpiStore demoFeatures Level.state "beneficiaries").filter
        (fun r => r.overallValue = 0) := by
  have h := barData_top10 demoKpiStore demoFeatures Level.state "beneficiaries"
    BarCategory.gender Scheme.all Gender.all Year.all
  exact ⟨h.1, h.2.2.2.1 0⟩

/-! ## Synthetic metrics generator, non-PMMSY (C9, C10)

`generateMockData` (src/src/App.tsx lines 195-258): for every feature and
every (scheme, gender, year) combination, one bag of six indicators,
scaled by fixed per-dimension modifiers times a per-feature regional
bias.  Each `Math.random()` call site is abstracted as a parameter. -/

/-- The contract of a `Math.random()` draw. -/
def isRand (r : ℚ) : Prop := 0 ≤ r ∧ r < 1

/-- One bag of the six generated indicators (`MetricValues`). -/
structure MetricValues where
  beneficiaries : ℤ
  funds : ℤ
  registrations : ℤ
  funds_used : ℤ
  beneficiaries_last_24h : ℤ
  registrations_last_24h : ℤ
deriving DecidableEq, Repr

/-- The six `Math.random()` draws consumed for one (scheme, gender, year)
combination, in source order. -/
structure ComboRand where
  rBen : ℚ
  rFunds : ℚ
  rReg : ℚ
  rFundsUsed : ℚ
  rBen24 : ℚ
  rReg24 : ℚ
deriving DecidableEq, Repr

/-- Validity of the six draws under `Math.random()`'s contract. -/
def ComboRand.valid (c : ComboRand) : Prop :=
  isRand c.rBen ∧ isRand c.rFunds ∧ isRand c.rReg ∧
    isRand c.rFundsUsed ∧ isRand c.rBen24 ∧ isRand c.rReg24

/-- The `schemeModifiers` table of the generator. -/
def schemeModifier : Scheme → ℚ
  | Scheme.all => 1
  | Scheme.PMMKSS => 9/10
  | Scheme.PMMSY => 11/10
  | Scheme.KCC => 85/100
  | Scheme.NFDP => 95/100

/-- The `genderModifiers` table of the generator. -/
def genderModifier : Gender → ℚ
  | Gender.all => 1
  | Gender.male => 12/10
  | Gender.female => 9/10
  | Gender.transgender => 8/10

/-- The `yearModifiers` table of the generator. -/
def yearModifier : Year → ℚ
  | Year.all => 1
  | Year.y2021 => 8/10
  | Year.y2022 => 9/10
  | Year.y2023 => 1
  | Year.y2024 => 11/10

/-- The per-feature regional bias:
`level === "state" ? 1.0 + r*0.1 : 0.9 + r*0.2`. -/
def regionalBias (lvl : Level) (r : ℚ) : ℚ :=
  if lvl = Level.state then 1 + r * (1/10) else 9/10 + r * (2/10)

/-- The bag computed for one combination from its weight and draws. -/
def mkMetricValues (weight : ℚ) (c : ComboRand) : MetricValues :=
  let beneficiaries : ℤ := ⌊weight * (500 + c.rBen * 4500)⌋
  let funds : ℤ := ⌊weight * (1000000 + c.rFunds * 9000000)⌋
  let registrations : ℤ := ⌊weight * (2000 + c.rReg * 8000)⌋
  { beneficiaries := beneficiaries
    funds := funds
    registrations := registrations
    funds_used := ⌊(funds : ℚ) * (6/10 + c.rFundsUsed * (35/100))⌋
    beneficiaries_last_24h := ⌊(beneficiaries : ℚ) * (1/100 + c.rBen24 * (5/100))⌋
    registrations_last_24h := ⌊(registrations : ℚ) * (5/1000 + c.rReg24 * (2/100))⌋ }

/-- The generator's scheme list. -/
def genSchemes : List Scheme :=
  [Scheme.all, Scheme.PMMKSS, Scheme.PMMSY, Scheme.KCC, Scheme.NFDP]

/-- The generator's gender list. -/
def genGenders : List Gender :=
  [Gender.all, Gender.male, Gender.female, Gender.transgender]

/-- The generator's year list. -/
def genYears : List Year :=
  [Year.all, Year.y2021, Year.y2022, Year.y2023, Year.y2024]

/-- All (scheme, gender, year) combinations, in the nesting order of the
source's three `forEach` loops. -/
def mockCombos : List (Scheme × Gender × Year) :=
  genSchemes.flatMap (fun s =>
    genGenders.flatMap (fun g =>
      genYears.map (fun y => (s, g, y))))

/-- The `areaData` object of one feature: a bag assigned under each
combination's `${scheme}_${gender}_${year}` key. -/
def mockAreaData (bias : ℚ) (dr : Scheme → Gender → Year → ComboRand) :
    List (String × MetricValues) :=
  mockCombos.foldl (fun ad c =>
    jsAssign ad (demographicKeyStr c.1 c.2.1 c.2.2)
      (mkMetricValues
        (schemeModifier c.1 * genderModifier c.2.1 * yearModifier c.2.2 * bias)
        (dr c.1 c.2.1 c.2.2))) []

/-- The generator `generateMockData`: the whole `dataMap`, keyed by
`shapeID`.  Here `rb`
abstracts the per-feature regional-bias draw and `dr` the per-combination
draws. -/
def generateMockData (areas : List Feature) (rb : Feature → ℚ)
    (dr : Feature → Scheme → Gender → Year → ComboRand) :
    List (String × List (String × MetricValues)) :=
  areas.foldl (fun dm a =>
    jsAssign dm a.shapeID
      (mockAreaData (regionalBias a.level (rb a)) (dr a))) []

theorem combo_mem_mockCombos (s : Scheme) (g : Gender) (y : Year) :
    (s, g, y) ∈ mockCombos := by
  cases s <;> cases g <;> cases y <;> decide

/-- C9: the generator's output is total over its key grid: every input
feature gets an entry under its `shapeID`, and that entry holds a bag
(with all six indicators defined, as `MetricValues` is a total record)
under every `${scheme}_${gender}_${year}` key of the generator's scheme,
gender and year lists. -/
theorem generateMockData_total (areas : List Feature) (rb : Feature → ℚ)
    (dr : Feature → Scheme → Gender → Year → ComboRand)
    (a : Feature) (ha : a ∈ areas) :
    ∃ ad, jsGet (generateMockData areas rb dr) a.shapeID = some ad ∧
      ∀ (s : Scheme) (g : Gender) (y : Year),
        ∃ v : MetricValues, jsGet ad (demographicKeyStr s g y) = some v := by
  have houter : (jsGet (generateMockData areas rb dr) a.shapeID).isSome := by
    apply jsGet_isSome_foldl_assign (fun f => f.shapeID)
      (fun f => mockAreaData (regionalBias f.level (rb f)) (dr f)) areas []
    exact Or.inr ⟨a, ha, rfl⟩
  rcases Option.isSome_iff_exists.mp houter with ⟨ad, had⟩
  refine ⟨ad, had, ?_⟩
  intro s g y
  have had' : jsGet (areas.foldl (fun acc f =>
      jsAssign acc ((fun f : Feature => f.shapeID) f)
        ((fun f : Feature => mockAreaData (regionalBias f.level (rb f)) (dr f)) f)) [])
      a.shapeID = some ad := had
  have hval := jsGet_foldl_assign_mem (fun f : Feature => f.shapeID)
    (fun f : Feature => mockAreaData (regionalBias f.level (rb f)) (dr f))
    areas [] a.shapeID ad had'
  rcases hval with hnil | ⟨f, _, hfv⟩
  · simp [jsGet] at hnil
  · subst hfv
    have hinner : (jsGet (mockAreaData (regionalBias f.level (rb f)) (dr f))
        (demographicKeyStr s g y)).isSome := by
      apply jsGet_isSome_foldl_assign
        (fun c => demographicKeyStr c.1 c.2.1 c.2.2)
        (fun c => mkMetricValues
          (schemeModifier c.1 * genderModifier c.2.1 * yearModifier c.2.2 *
            regionalBias f.level (rb f))
          (dr f c.1 c.2.1 c.2.2))
        mockCombos []
      exact Or.inr ⟨(s, g, y), combo_mem_mockCombos s g y, rfl⟩
    exact Option.isSome_iff_exists.mp hinner

/-- A sample feature used by the generator witnesses. -/
def demoFeature : Feature := ⟨"F1", "Feat One", Level.state, "Polygon"⟩

/-- All six draws set to one half. -/
def demoRandHalf : ComboRand := ⟨1/2, 1/2, 1/2, 1/2, 1/2, 1/2⟩

/-- Witness for C9: the generator run on one concrete feature produces an
entry holding a bag under every grid key. -/
theorem generateMockData_total_witness :
    ∃ ad, jsGet (generateMockData [demoFeature] (fun _ => 1/2)
        (fun _ _ _ _ => demoRandHalf)) "F1" = some ad ∧
      ∀ (s : Scheme) (g : Gender) (y : Year),
        ∃ v : MetricValues, jsGet ad (demographicKeyStr s g y) = some v :=
  generateMockData_total [demoFeature] (fun _ => 1/2) (fun _ _ _ _ => demoRandHalf)
    demoFeature (List.mem_singleton.mpr rfl)

/-- The invariants of every generated bag. -/
def bagInvariants (v : MetricValues) : Prop :=
  0 ≤ v.beneficiaries ∧ 0 ≤ v.funds ∧ 0 ≤ v.registrations ∧
  0 ≤ v.funds_used ∧ 0 ≤ v.beneficiaries_last_24h ∧ 0 ≤ v.registrations_last_24h ∧
  v.funds_used ≤ v.funds ∧ v.beneficiaries_last_24h ≤ v.beneficiaries ∧
  v.registrations_last_24h ≤ v.registrations

theorem schemeModifier_pos (s : Scheme) : 0 < schemeModifier s := by
  cases s <;> norm_num [schemeModifier]

theorem genderModifier_pos (g : Gender) : 0 < genderModifier g := by
  cases g <;> norm_num [genderModifier]

theorem yearModifier_pos (y : Year) : 0 < yearModifier y := by
  cases y <;> norm_num [yearModifier]

theorem regionalBias_pos (lvl : Level) (r : ℚ) (hr : isRand r) :
    0 < regionalBias lvl r := by
  rcases hr with ⟨h0, _⟩
  by_cases hl : lvl = Level.state <;> simp only [regionalBias, hl, if_true, if_false] <;>
    nlinarith

/-- A floored product of a non-negative integer and a factor in `[0, 1)`
stays between `0` and the integer. -/
theorem floor_scale_le (n : ℤ) (c : ℚ) (hn : 0 ≤ n) (hc0 : 0 ≤ c) (hc1 : c ≤ 1) :
    0 ≤ ⌊(n : ℚ) * c⌋ ∧ ⌊(n : ℚ) * c⌋ ≤ n := by
  constructor
  · exact Int.le_floor.mpr (by
      push_cast
      exact mul_nonneg (by exact_mod_cast hn) hc0)
  · have h1 : (n : ℚ) * c ≤ (n : ℚ) :=
      mul_le_of_le_one_right (by exact_mod_cast hn) hc1
    have h2 : ⌊(n : ℚ) * c⌋ ≤ ⌊(n : ℚ)⌋ := Int.floor_mono h1
    simpa [Int.floor_intCast] using h2

theorem mkMetricValues_invariants (weight : ℚ) (c : ComboRand)
    (hw : 0 < weight) (hc : c.valid) : bagInvariants (mkMetricValues weight c) := by
  obtain ⟨⟨hb0, hb1⟩, ⟨hf0, hf1⟩, ⟨hr0, hr1⟩, ⟨hu0, hu1⟩, ⟨h240, h241⟩, ⟨h250, h251⟩⟩ := hc
  have hben : (0 : ℤ) ≤ ⌊weight * (500 + c.rBen * 4500)⌋ :=
    Int.le_floor.mpr (by push_cast; nlinarith)
  have hfun : (0 : ℤ) ≤ ⌊weight * (1000000 + c.rFunds * 9000000)⌋ :=
    Int.le_floor.mpr (by push_cast; nlinarith)
  have hreg : (0 : ℤ) ≤ ⌊weight * (2000 + c.rReg * 8000)⌋ :=
    Int.le_floor.mpr (by push_cast; nlinarith)
  have hused := floor_scale_le ⌊weight * (1000000 + c.rFunds * 9000000)⌋
    (6/10 + c.rFundsUsed * (35/100)) hfun (by nlinarith) (by nlinarith)
  have hb24 := floor_scale_le ⌊weight * (500 + c.rBen * 4500)⌋
    (1/100 + c.rBen24 * (5/100)) hben (by nlinarith) (by nlinarith)
  have hr24 := floor_scale_le ⌊weight * (2000 + c.rReg * 8000)⌋
    (5/1000 + c.rReg24 * (2/100)) hreg (by nlinarith) (by nlinarith)
  exact ⟨hben, hfun, hreg, hused.1, hb24.1, hr24.1, hused.2, hb24.2, hr24.2⟩

/-- C10: every bag produced by the generator, for every feature, key and
collection of valid random draws, has six non-negative integer
indicators, uses no more funds than allocated, and reports no more
last-24-hour beneficiaries/registrations than their totals. -/
theorem generateMockData_invariants (areas : List Feature) (rb : Feature → ℚ)
    (dr : Feature → Scheme → Gender → Year → ComboRand)
    (hrb : ∀ a : Feature, isRand (rb a))
    (hdr : ∀ (a : Feature) (s : Scheme) (g : Gender) (y : Year), (dr a s g y).valid) :
    ∀ (id k : String) (ad : List (String × MetricValues)) (v : MetricValues),
      jsGet (generateMockData areas rb dr) id = some ad →
      jsGet ad k = some v → bagInvariants v := by
  intro id k ad v had hv
  have had' : jsGet (areas.foldl (fun acc f =>
      jsAssign acc ((fun f : Feature => f.shapeID) f)
        ((fun f : Feature => mockAreaData (regionalBias f.level (rb f)) (dr f)) f)) [])
      id = some ad := had
  have houter := jsGet_foldl_assign_mem (fun f : Feature => f.shapeID)
    (fun f : Feature => mockAreaData (regionalBias f.level (rb f)) (dr f))
    areas [] id ad had'
  rcases houter with hnil | ⟨f, _, hfv⟩
  · simp [jsGet] at hnil
  · subst hfv
    have hv' : jsGet (mockCombos.foldl (fun acc c =>
        jsAssign acc
          ((fun c : Scheme × Gender × Year => demographicKeyStr c.1 c.2.1 c.2.2) c)
          ((fun c : Scheme × Gender × Year => mkMetricValues
            (schemeModifier c.1 * genderModifier c.2.1 * yearModifier c.2.2 *
              regionalBias f.level (rb f))
            (dr f c.1 c.2.1 c.2.2)) c)) []) k = some v := hv
    have hinner := jsGet_foldl_assign_mem
      (fun c : Scheme × Gender × Year => demographicKeyStr c.1 c.2.1 c.2.2)
      (fun c : Scheme × Gender × Year => mkMetricValues
        (schemeModifier c.1 * genderModifier c.2.1 * yearModifier c.2.2 *
          regionalBias f.level (rb f))
        (dr f c.1 c.2.1 c.2.2))
      mockCombos [] k v hv'
    rcases hinner with hnil | ⟨cmb, _, hcv⟩
    · simp [jsGet] at hnil
    · subst hcv
      apply mkMetricValues_invariants
      · have := regionalBias_pos f.level (rb f) (hrb f)
        have h1 := schemeModifier_pos cmb.1
        have h2 := genderModifier_pos cmb.2.1
        have h3 := yearModifier_pos cmb.2.2
        positivity
      · exact hdr f cmb.1 cmb.2.1 cmb.2.2

set_option maxHeartbeats 1600000 in
/-- Witness for C10: every hypothesis is satisfied by the half-draws, and
the concrete bag under `all_all_all` satisfies the invariants. -/
theorem generateMockData_invariants_witness :
    ∃ (ad : List (String × MetricValues)) (v : MetricValues),
      jsGet (generateMockData [demoFeature] (fun _ => 1/2)
        (fun _ _ _ _ => demoRandHalf)) "F1" = some ad ∧
      jsGet ad "all_all_all" = some v ∧ bagInvariants v := by
  refine ⟨_, _, rfl, rfl, ?_⟩
  exact generateMockData_invariants [demoFeature] (fun _ => 1/2)
    (fun _ _ _ _ => demoRandHalf)
    (fun _ => by constructor <;> norm_num)
    (fun _ _ _ _ => by
      refine ⟨?_, ?_, ?_, ?_, ?_, ?_⟩ <;> constructor <;> norm_num [demoRandHalf])
    "F1" "all_all_all" _ _ rfl rfl

/-! ## Synthetic metrics generator, PMMSY (C8)

`generateMockPMMSYData` (src/unnamed/part_004 lines 280-384): per-combo
bags under `PMMSY_${gender}_${year}_${sector}` keys, and precomputed
aggregate bags maintained as running sums while the combination loop
runs, merged into the area data by `Object.assign`. -/

/-- The sector dimension of the PMMSY generator. -/
inductive Sector where
  | Inland
  | Marine
deriving DecidableEq, Repr

/-- Sector key strings. -/
def Sector.str : Sector → String
  | Sector.Inland => "Inland"
  | Sector.Marine => "Marine"

/-- One PMMSY bag of the three generated indicators. -/
structure PmmsyBag where
  totalProjects : ℤ
  totalInvestment : ℤ
  fishOutput : ℤ
deriving DecidableEq, Repr

/-- The all-zero bag the aggregates start from. -/
def PmmsyBag.zero : PmmsyBag := ⟨0, 0, 0⟩

/-- Indicator-wise accumulation (`+=` on the three fields). -/
def PmmsyBag.add (a b : PmmsyBag) : PmmsyBag :=
  ⟨a.totalProjects + b.totalProjects,
   a.totalInvestment + b.totalInvestment,
   a.fishOutput + b.fishOutput⟩

theorem PmmsyBag.zero_add (b : PmmsyBag) : PmmsyBag.zero.add b = b := by
  cases b
  simp [PmmsyBag.add, PmmsyBag.zero]

theorem PmmsyBag.add_zero (b : PmmsyBag) : b.add PmmsyBag.zero = b := by
  cases b
  simp [PmmsyBag.add, PmmsyBag.zero]

theorem PmmsyBag.add_assoc (a b c : PmmsyBag) :
    (a.add b).add c = a.add (b.add c) := by
  cases a; cases b; cases c
  simp only [PmmsyBag.add, PmmsyBag.mk.injEq]
  refine ⟨?_, ?_, ?_⟩ <;> ring

/-- Indicator-wise sum of a list of bags. -/
def bagSum (l : List PmmsyBag) : PmmsyBag :=
  l.foldr PmmsyBag.add PmmsyBag.zero

/-- The per-combination key `PMMSY_${gender}_${year}_${sector}`. -/
def pmmsyComboKey (g : Gender) (y : Year) (s : Sector) : String :=
  "PMMSY_" ++ g.str ++ "_" ++ y.str ++ "_" ++ s.str

/-- The grand-total aggregate key. -/
def pmmsyAllKey : String := "PMMSY_all_all_all"

/-- The per-gender aggregate key `PMMSY_${gender}_all_all`. -/
def pmmsyGenderKey (g : Gender) : String := "PMMSY_" ++ g.str ++ "_all_all"

/-- The per-year aggregate key `PMMSY_all_${year}_all`. -/
def pmmsyYearKey (y : Year) : String := "PMMSY_all_" ++ y.str ++ "_all"

/-- The per-sector aggregate key `PMMSY_all_all_${sector}`. -/
def pmmsySectorKey (s : Sector) : String := "PMMSY_all_all_" ++ s.str

/-- The PMMSY generator's gender list (no `all`). -/
def pmmsyGenders : List Gender := [Gender.male, Gender.female, Gender.transgender]

/-- The PMMSY generator's year list (no `all`). -/
def pmmsyYears : List Year := [Year.y2021, Year.y2022, Year.y2023, Year.y2024]

/-- The PMMSY generator's sector list. -/
def pmmsySectors : List Sector := [Sector.Inland, Sector.Marine]

/-- All 24 (gender, year, sector) combinations in loop-nesting order. -/
def pmmsyCombos : List (Gender × Year × Sector) :=
  pmmsyGenders.flatMap (fun g =>
    pmmsyYears.flatMap (fun y =>
      pmmsySectors.map (fun s => (g, y, s))))

/-- The gender modifier conditional chain of the PMMSY generator. -/
def pmmsyGenderMod (g : Gender) : ℚ :=
  if g = Gender.male then 12/10 else if g = Gender.female then 9/10 else 8/10

/-- The year modifier conditional chain of the PMMSY generator. -/
def pmmsyYearMod (y : Year) : ℚ :=
  if y = Year.y2021 then 8/10 else if y = Year.y2022 then 9/10
  else if y = Year.y2023 then 1 else 11/10

/-- The sector modifier of the PMMSY generator. -/
def pmmsySectorMod (s : Sector) : ℚ :=
  if s = Sector.Inland then 11/10 else 9/10

/-- The PMMSY regional bias `0.1 + r * 1.9`. -/
def pmmsyRegionalBias (r : ℚ) : ℚ := 1/10 + r * (19/10)

/-- The three `Math.random()` draws of one PMMSY combination. -/
structure PmmsyRand where
  rProj : ℚ
  rInv : ℚ
  rOut : ℚ
deriving DecidableEq, Repr

/-- The per-combination PMMSY bag. -/
def mkPmmsyBag (weight : ℚ) (c : PmmsyRand) : PmmsyBag :=
  ⟨⌊weight * (3 + c.rProj * 1)⌋,
   ⌊weight * (50000 + c.rInv * 450000)⌋,
   ⌊weight * (5 + c.rOut * 1)⌋⟩

/-- The bag of one combination for a fixed area bias and draw family. -/
def pmmsyBagOf (bias : ℚ) (dr : Gender → Year → Sector → PmmsyRand)
    (g : Gender) (y : Year) (s : Sector) : PmmsyBag :=
  mkPmmsyBag (pmmsyGenderMod g * pmmsyYearMod y * pmmsySectorMod s * bias) (dr g y s)

/-- One `+=` update of the `aggregated` object at one key (creating the
entry as a zero bag when missing, as the `if (!aggregated[key])`
initialisation does). -/
def aggBump (m : String → Option PmmsyBag) (k : String) (b : PmmsyBag) :
    String → Option PmmsyBag :=
  fun q => if q = k then some (((m k).getD PmmsyBag.zero).add b) else m q

/-- The four aggregate keys touched while processing one combination, in
update order. -/
def comboKeys (c : Gender × Year × Sector) : List String :=
  [pmmsyAllKey, pmmsyGenderKey c.1, pmmsyYearKey c.2.1, pmmsySectorKey c.2.2]

/-- One iteration of the combination loop on the `aggregated` object. -/
def aggStep (bag : Gender → Year → Sector → PmmsyBag)
    (m : String → Option PmmsyBag) (c : Gender × Year × Sector) :
    String → Option PmmsyBag :=
  aggBump (aggBump (aggBump (aggBump m pmmsyAllKey (bag c.1 c.2.1 c.2.2))
    (pmmsyGenderKey c.1) (bag c.1 c.2.1 c.2.2))
    (pmmsyYearKey c.2.1) (bag c.1 c.2.1 c.2.2))
    (pmmsySectorKey c.2.2) (bag c.1 c.2.1 c.2.2)

/-- The `aggregated` object before the loop: only the grand-total key,
holding the all-zero bag. -/
def aggInit : String → Option PmmsyBag :=
  fun q => if q = pmmsyAllKey then some PmmsyBag.zero else none

/-- The `aggregated` object after the whole combination loop. -/
def pmmsyAggregated (bag : Gender → Year → Sector → PmmsyBag) :
    String → Option PmmsyBag :=
  pmmsyCombos.foldl (aggStep bag) aggInit

/-- The per-combination entries of `areaData`. -/
def pmmsyAreaEntries (bag : Gender → Year → Sector → PmmsyBag) :
    List (String × PmmsyBag) :=
  pmmsyCombos.foldl (fun ad c =>
    jsAssign ad (pmmsyComboKey c.1 c.2.1 c.2.2) (bag c.1 c.2.1 c.2.2)) []

/-- The area data after `Object.assign(areaData, aggregated)`: an
aggregate entry shadows, any other key reads the per-combination
entries. -/
def pmmsyAreaGet (bag : Gender → Year → Sector → PmmsyBag) (k : String) :
    Option PmmsyBag :=
  match pmmsyAggregated bag k with
  | some v => some v
  | none => jsGet (pmmsyAreaEntries bag) k

/-- The generator `generateMockPMMSYData`: one area-data reader per
feature, keyed by
`shapeID`. -/
def generateMockPMMSYData (areas : List Feature) (rb : Feature → ℚ)
    (dr : Feature → Gender → Year → Sector → PmmsyRand) :
    List (String × (String → Option PmmsyBag)) :=
  areas.foldl (fun dm a =>
    jsAssign dm a.shapeID
      (pmmsyAreaGet (pmmsyBagOf (pmmsyRegionalBias (rb a)) (dr a)))) []

theorem aggBump_self (m : String → Option PmmsyBag) (k : String) (b : PmmsyBag) :
    aggBump m k b k = some (((m k).getD PmmsyBag.zero).add b) := if_pos rfl

theorem aggBump_ne (m : String → Option PmmsyBag) (k : String) (b : PmmsyBag)
    (q : String) (h : q ≠ k) : aggBump m k b q = m q := if_neg h

theorem bagSum_cons (b : PmmsyBag) (l : List PmmsyBag) :
    bagSum (b :: l) = b.add (bagSum l) := rfl

/-- Every combination the PMMSY loop visits touches four distinct
aggregate keys (none of its dimensions is the `all` value). -/
theorem pmmsyCombos_comboKeys_nodup : ∀ c ∈ pmmsyCombos, (comboKeys c).Nodup := by
  decide

/-- Reading the `aggregated` object after one loop iteration: a key of
the combination gains the combination's bag, every other key is
untouched. -/
theorem aggStep_lookup (bag : Gender → Year → Sector → PmmsyBag)
    (m : String → Option PmmsyBag) (c : Gender × Year × Sector) (K : String)
    (hnd : (comboKeys c).Nodup) :
    aggStep bag m c K =
      if K ∈ comboKeys c
      then some (((m K).getD PmmsyBag.zero).add (bag c.1 c.2.1 c.2.2))
      else m K := by
  obtain ⟨g, y, s⟩ := c
  simp only [comboKeys] at hnd
  rcases List.nodup_cons.mp hnd with ⟨hn1, hnd2⟩
  rcases List.nodup_cons.mp hnd2 with ⟨hn2, hnd3⟩
  rcases List.nodup_cons.mp hnd3 with ⟨hn3, -⟩
  have h12 : pmmsyAllKey ≠ pmmsyGenderKey g := by
    intro h; apply hn1; rw [h]; exact List.mem_cons_self _ _
  have h13 : pmmsyAllKey ≠ pmmsyYearKey y := by
    intro h; apply hn1; rw [h]
    exact List.mem_cons_of_mem _ (List.mem_cons_self _ _)
  have h14 : pmmsyAllKey ≠ pmmsySectorKey s := by
    intro h; apply hn1; rw [h]
    exact List.mem_cons_of_mem _ (List.mem_cons_of_mem _ (List.mem_cons_self _ _))
  have h23 : pmmsyGenderKey g ≠ pmmsyYearKey y := by
    intro h; apply hn2; rw [h]; exact List.mem_cons_self _ _
  have h24 : pmmsyGenderKey g ≠ pmmsySectorKey s := by
    intro h; apply hn2; rw [h]
    exact List.mem_cons_of_mem _ (List.mem_cons_self _ _)
  have h34 : pmmsyYearKey y ≠ pmmsySectorKey s := by
    intro h; apply hn3; rw [h]; exact List.mem_cons_self _ _
  simp only [aggStep, comboKeys]
  by_cases e4 : K = pmmsySectorKey s
  · subst e4
    rw [aggBump_self, aggBump_ne _ _ _ _ (Ne.symm h34),
      aggBump_ne _ _ _ _ (Ne.symm h24), aggBump_ne _ _ _ _ (Ne.symm h14),
      if_pos (by simp)]
  · by_cases e3 : K = pmmsyYearKey y
    · subst e3
      rw [aggBump_ne _ _ _ _ e4, aggBump_self,
        aggBump_ne _ _ _ _ (Ne.symm h23), aggBump_ne _ _ _ _ (Ne.symm h13),
        if_pos (by simp)]
    · by_cases e2 : K = pmmsyGenderKey g
      · subst e2
        rw [aggBump_ne _ _ _ _ e4, aggBump_ne _ _ _ _ e3, aggBump_self,
          aggBump_ne _ _ _ _ (Ne.symm h12), if_pos (by simp)]
      · by_cases e1 : K = pmmsyAllKey
        · subst e1
          rw [aggBump_ne _ _ _ _ e4, aggBump_ne _ _ _ _ e3,
            aggBump_ne _ _ _ _ e2, aggBump_self, if_pos (by simp)]
        · rw [aggBump_ne _ _ _ _ e4, aggBump_ne _ _ _ _ e3,
            aggBump_ne _ _ _ _ e2, aggBump_ne _ _ _ _ e1,
            if_neg (by simp [e1, e2, e3, e4])]

/-- Reading the `aggregated` object after folding a list of
combinations: the running sum of the bags of every combination that
touches the key, on top of the initial entry. -/
theorem foldl_aggStep_lookup (bag : Gender → Year → Sector → PmmsyBag)
    (K : String) (l : List (Gender × Year × Sector))
    (m : String → Option PmmsyBag)
    (hl : ∀ c ∈ l, (comboKeys c).Nodup) :
    (l.foldl (aggStep bag) m) K =
      if l.filter (fun c => decide (K ∈ comboKeys c)) = [] then m K
      else some (((m K).getD PmmsyBag.zero).add
        (bagSum ((l.filter (fun c => decide (K ∈ comboKeys c))).map
          (fun c => bag c.1 c.2.1 c.2.2)))) := by
  induction l generalizing m with
  | nil => simp
  | cons c cs ih =>
    have hndc := hl c (List.mem_cons_self c cs)
    have hlcs : ∀ x ∈ cs, (comboKeys x).Nodup :=
      fun x hx => hl x (List.mem_cons_of_mem c hx)
    by_cases hc : K ∈ comboKeys c
    · have hfc : List.filter (fun x => decide (K ∈ comboKeys x)) (c :: cs) =
          c :: List.filter (fun x => decide (K ∈ comboKeys x)) cs := by
        simp [List.filter_cons, hc]
      have hstep : aggStep bag m c K =
          some (((m K).getD PmmsyBag.zero).add (bag c.1 c.2.1 c.2.2)) := by
        rw [aggStep_lookup bag m c K hndc, if_pos hc]
      rw [List.foldl_cons, ih (aggStep bag m c) hlcs, hfc,
        if_neg (List.cons_ne_nil c _)]
      by_cases hcs : List.filter (fun x => decide (K ∈ comboKeys x)) cs = []
      · rw [if_pos hcs, hstep, hcs]
        simp [bagSum, PmmsyBag.add_zero]
      · rw [if_neg hcs, hstep]
        simp only [Option.getD_some, List.map_cons, bagSum_cons]
        rw [PmmsyBag.add_assoc]
    · have hfc : List.filter (fun x => decide (K ∈ comboKeys x)) (c :: cs) =
          List.filter (fun x => decide (K ∈ comboKeys x)) cs := by
        simp [List.filter_cons, hc]
      have hstep : aggStep bag m c K = m K := by
        rw [aggStep_lookup bag m c K hndc, if_neg hc]
      rw [List.foldl_cons, ih (aggStep bag m c) hlcs, hstep, hfc]

theorem allKey_filter :
    pmmsyCombos.filter (fun c => decide (pmmsyAllKey ∈ comboKeys c)) = pmmsyCombos := by
  decide

theorem genderKey_filter (g : Gender) (hg : g ∈ pmmsyGenders) :
    pmmsyCombos.filter (fun c => decide (pmmsyGenderKey g ∈ comboKeys c)) =
      pmmsyCombos.filter (fun c => decide (c.1 = g)) := by
  fin_cases hg <;> decide

theorem yearKey_filter (y : Year) (hy : y ∈ pmmsyYears) :
    pmmsyCombos.filter (fun c => decide (pmmsyYearKey y ∈ comboKeys c)) =
      pmmsyCombos.filter (fun c => decide (c.2.1 = y)) := by
  fin_cases hy <;> decide

theorem sectorKey_filter (s : Sector) (hs : s ∈ pmmsySectors) :
    pmmsyCombos.filter (fun c => decide (pmmsySectorKey s ∈ comboKeys c)) =
      pmmsyCombos.filter (fun c => decide (c.2.2 = s)) := by
  fin_cases hs <;> decide

/-- The aggregate reads of one area's PMMSY data are exact sums of the
constituent per-combination bags. -/
theorem pmmsyAreaGet_aggregates (bag : Gender → Year → Sector → PmmsyBag) :
    pmmsyAreaGet bag pmmsyAllKey =
      some (bagSum (pmmsyCombos.map (fun c => bag c.1 c.2.1 c.2.2))) ∧
    (∀ g ∈ pmmsyGenders, pmmsyAreaGet bag (pmmsyGenderKey g) =
      some (bagSum ((pmmsyCombos.filter (fun c => decide (c.1 = g))).map
        (fun c => bag c.1 c.2.1 c.2.2)))) ∧
    (∀ y ∈ pmmsyYears, pmmsyAreaGet bag (pmmsyYearKey y) =
      some (bagSum ((pmmsyCombos.filter (fun c => decide (c.2.1 = y))).map
        (fun c => bag c.1 c.2.1 c.2.2)))) ∧
    (∀ s ∈ pmmsySectors, pmmsyAreaGet bag (pmmsySectorKey s) =
      some (bagSum ((pmmsyCombos.filter (fun c => decide (c.2.2 = s))).map
        (fun c => bag c.1 c.2.1 c.2.2)))) := by
  refine ⟨?_, ?_, ?_, ?_⟩
  · have h := foldl_aggStep_lookup bag pmmsyAllKey pmmsyCombos aggInit pmmsyCombos_comboKeys_nodup
    rw [allKey_filter] at h
    have hne : pmmsyCombos ≠ [] := by decide
    rw [if_neg hne] at h
    have hinit : (aggInit pmmsyAllKey).getD PmmsyBag.zero = PmmsyBag.zero := by
      simp [aggInit]
    rw [hinit, PmmsyBag.zero_add] at h
    simp [pmmsyAreaGet, pmmsyAggregated, h]
  · intro g hg
    have h := foldl_aggStep_lookup bag (pmmsyGenderKey g) pmmsyCombos aggInit pmmsyCombos_comboKeys_nodup
    rw [genderKey_filter g hg] at h
    have hne : pmmsyCombos.filter (fun c => decide (c.1 = g)) ≠ [] := by
      fin_cases hg <;> decide
    rw [if_neg hne] at h
    have hinit : (aggInit (pmmsyGenderKey g)).getD PmmsyBag.zero = PmmsyBag.zero := by
      fin_cases hg <;> simp [aggInit, pmmsyGenderKey, pmmsyAllKey, Gender.str]
    rw [hinit, PmmsyBag.zero_add] at h
    simp [pmmsyAreaGet, pmmsyAggregated, h]
  · intro y hy
    have h := foldl_aggStep_lookup bag (pmmsyYearKey y) pmmsyCombos aggInit pmmsyCombos_comboKeys_nodup
    rw [yearKey_filter y hy] at h
    have hne : pmmsyCombos.filter (fun c => decide (c.2.1 = y)) ≠ [] := by
      fin_cases hy <;> decide
    rw [if_neg hne] at h
    have hinit : (aggInit (pmmsyYearKey y)).getD PmmsyBag.zero = PmmsyBag.zero := by
      fin_cases hy <;> simp [aggInit, pmmsyYearKey, pmmsyAllKey, Year.str]
    rw [hinit, PmmsyBag.zero_add] at h
    simp [pmmsyAreaGet, pmmsyAggregated, h]
  · intro s hs
    have h := foldl_aggStep_lookup bag (pmmsySectorKey s) pmmsyCombos aggInit pmmsyCombos_comboKeys_nodup
    rw [sectorKey_filter s hs] at h
    have hne : pmmsyCombos.filter (fun c => decide (c.2.2 = s)) ≠ [] := by
      fin_cases hs <;> decide
    rw [if_neg hne] at h
    have hinit : (aggInit (pmmsySectorKey s)).getD PmmsyBag.zero = PmmsyBag.zero := by
      fin_cases hs <;> simp [aggInit, pmmsySectorKey, pmmsyAllKey, Sector.str]
    rw [hinit, PmmsyBag.zero_add] at h
    simp [pmmsyAreaGet, pmmsyAggregated, h]

/-- C8: in the PMMSY generator, every feature's precomputed aggregate
bags are exact sums of their constituents: the `PMMSY_all_all_all` bag
equals, indicator by indicator, the sum of all 24 per-(gender, year,
sector) bags, and each `PMMSY_g_all_all` / `PMMSY_all_y_all` /
`PMMSY_all_all_s` bag equals the sum of the constituent bags matching
that fixed dimension. -/
theorem pmmsy_aggregates_exact (areas : List Feature) (rb : Feature → ℚ)
    (dr : Feature → Gender → Year → Sector → PmmsyRand)
    (a : Feature) (ha : a ∈ areas) :
    ∃ (get : String → Option PmmsyBag) (B : Gender → Year → Sector → PmmsyBag),
      jsGet (generateMockPMMSYData areas rb dr) a.shapeID = some get ∧
      (∀ k, get k = pmmsyAreaGet B k) ∧
      get pmmsyAllKey =
        some (bagSum (pmmsyCombos.map (fun c => B c.1 c.2.1 c.2.2))) ∧
      (∀ g ∈ pmmsyGenders, get (pmmsyGenderKey g) =
        some (bagSum ((pmmsyCombos.filter (fun c => decide (c.1 = g))).map
          (fun c => B c.1 c.2.1 c.2.2)))) ∧
      (∀ y ∈ pmmsyYears, get (pmmsyYearKey y) =
        some (bagSum ((pmmsyCombos.filter (fun c => decide (c.2.1 = y))).map
          (fun c => B c.1 c.2.1 c.2.2)))) ∧
      (∀ s ∈ pmmsySectors, get (pmmsySectorKey s) =
        some (bagSum ((pmmsyCombos.filter (fun c => decide (c.2.2 = s))).map
          (fun c => B c.1 c.2.1 c.2.2)))) := by
  have houter : (jsGet (generateMockPMMSYData areas rb dr) a.shapeID).isSome := by
    apply jsGet_isSome_foldl_assign (fun f : Feature => f.shapeID)
      (fun f : Feature => pmmsyAreaGet (pmmsyBagOf (pmmsyRegionalBias (rb f)) (dr f)))
      areas []
    exact Or.inr ⟨a, ha, rfl⟩
  rcases Option.isSome_iff_exists.mp houter with ⟨get, hget⟩
  have hget' : jsGet (areas.foldl (fun acc f =>
      jsAssign acc ((fun f : Feature => f.shapeID) f)
        ((fun f : Feature =>
          pmmsyAreaGet (pmmsyBagOf (pmmsyRegionalBias (rb f)) (dr f))) f)) [])
      a.shapeID = some get := hget
  have hmem := jsGet_foldl_assign_mem (fun f : Feature => f.shapeID)
    (fun f : Feature => pmmsyAreaGet (pmmsyBagOf (pmmsyRegionalBias (rb f)) (dr f)))
    areas [] a.shapeID get hget'
  rcases hmem with hnil | ⟨f, _, hfv⟩
  · simp [jsGet] at hnil
  · refine ⟨get, pmmsyBagOf (pmmsyRegionalBias (rb f)) (dr f), hget, ?_, ?_⟩
    · intro k
      rw [← hfv]
    · rw [← hfv]
      exact pmmsyAreaGet_aggregates (pmmsyBagOf (pmmsyRegionalBias (rb f)) (dr f))

/-- Witness for C8: the theorem instantiated on one concrete feature with
half draws. -/
theorem pmmsy_aggregates_exact_witness :
    ∃ (get : String → Option PmmsyBag) (B : Gender → Year → Sector → PmmsyBag),
      jsGet (generateMockPMMSYData [demoFeature] (fun _ => 1/2)
        (fun _ _ _ _ => ⟨1/2, 1/2, 1/2⟩)) "F1" = some get ∧
      (∀ k, get k = pmmsyAreaGet B k) ∧
      get pmmsyAllKey =
        some (bagSum (pmmsyCombos.map (fun c => B c.1 c.2.1 c.2.2))) ∧
      (∀ g ∈ pmmsyGenders, get (pmmsyGenderKey g) =
        some (bagSum ((pmmsyCombos.filter (fun c => decide (c.1 = g))).map
          (fun c => B c.1 c.2.1 c.2.2)))) ∧
      (∀ y ∈ pmmsyYears, get (pmmsyYearKey y) =
        some (bagSum ((pmmsyCombos.filter (fun c => decide (c.2.1 = y))).map
          (fun c => B c.1 c.2.1 c.2.2)))) ∧
      (∀ s ∈ pmmsySectors, get (pmmsySectorKey s) =
        some (bagSum ((pmmsyCombos.filter (fun c => decide (c.2.2 = s))).map
          (fun c => B c.1 c.2.1 c.2.2)))) :=
  pmmsy_aggregates_exact [demoFeature] (fun _ => 1/2) (fun _ _ _ _ => ⟨1/2, 1/2, 1/2⟩)
    demoFeature (List.mem_singleton.mpr rfl)

/-! ## Bihar district redistribution (C1)

`distributeBiharMetrics` (src/unnamed/part_004 lines 556-591): for each
(key, indicator) entry of the Bihar state bag, draw one random weight per
district, normalise, scale so the real-valued shares sum to the parent
value, and store `Math.floor` of each share. -/

/-- The per-(key, indicator) share computation of the distribution loop:
`ws` stands for the `districts.map(() => Math.random())` draws, in
district order.  The final `Math.floor` is the one applied when the share
is stored into `districtMetrics`. -/
def biharDistrictShares (mVal : ℚ) (ws : List ℚ) : List ℤ :=
  let totalWeight := ws.sum
  let normalizedWeights := ws.map (fun w => w / totalWeight)
  let tempValues := normalizedWeights.map (fun w => mVal * w)
  let sumTemp := tempValues.sum
  let scale := mVal / sumTemp
  tempValues.map (fun t => ⌊t * scale⌋)

/-- The function `distributeBiharMetrics`: iterate the parent bag's
entries (outer:
lookup key, inner: indicator), distribute each numeric value over the
districts, and populate the nested `districtMetrics` object, read here as
district id, key and indicator to an optional stored value. -/
def distributeBiharMetrics
    (biharStateMetrics : List (String × List (String × ℚ)))
    (districts : List Feature)
    (w : String → String → ℕ → ℚ) :
    String → String → String → Option ℤ :=
  biharStateMetrics.foldl (fun dm kv =>
    kv.2.foldl (fun dm mv =>
      let ws := (List.range districts.length).map (w kv.1 mv.1)
      let shares := biharDistrictShares mv.2 ws
      (districts.zip shares).foldl (fun dm p =>
        fun d k mk =>
          if d = p.1.shapeID ∧ k = kv.1 ∧ mk = mv.1 then some p.2 else dm d k mk)
        dm) dm)
    (fun _ _ _ => none)

/-- A one-key, one-indicator Bihar parent bag with value 1000. -/
def biharParent : List (String × List (String × ℚ)) :=
  [("all_all_all", [("beneficiaries", 1000)])]

/-- Two Bihar district features. -/
def biharDistricts : List Feature :=
  [⟨"D1", "DistOne", Level.district, "Polygon"⟩,
   ⟨"D2", "DistTwo", Level.district, "Polygon"⟩]

/-- Concrete weight draws 1 and 2 for the two districts. -/
def biharWeights : String → String → ℕ → ℚ := fun _ _ i => (i : ℚ) + 1

/-- Counterexample to C1 as stated: with parent value 1000 and district
weights 1 and 2, the two children receive 333 and 666, summing to 999,
not the parent's 1000 — the per-child `Math.floor` breaks the exact-sum
invariant. -/
theorem bihar_exact_sum_fails :
    (distributeBiharMetrics biharParent biharDistricts biharWeights
        "D1" "all_all_all" "beneficiaries").getD 0 +
      (distributeBiharMetrics biharParent biharDistricts biharWeights
        "D2" "all_all_all" "beneficiaries").getD 0 = 999 ∧ (999 : ℤ) ≠ 1000 := by
  constructor
  · simp only [distributeBiharMetrics, biharParent, biharDistricts, List.foldl,
      List.zip, List.zipWith, List.length_cons, List.length_nil, List.range_succ,
      List.range_zero, List.map, List.sum_cons, List.sum_nil, biharWeights,
      Function.comp, biharDistrictShares]
    norm_num
    decide
  · decide

theorem sum_map_floor_le (l : List ℚ) :
    (((l.map (fun t => ⌊t⌋)).sum : ℤ) : ℚ) ≤ l.sum := by
  induction l with
  | nil => simp
  | cons x xs ih =>
    simp only [List.map_cons, List.sum_cons, Int.cast_add]
    exact add_le_add (Int.floor_le x) ih

theorem sum_sub_length_le_sum_map_floor (l : List ℚ) :
    l.sum - l.length ≤ (((l.map (fun t => ⌊t⌋)).sum : ℤ) : ℚ) := by
  induction l with
  | nil => simp
  | cons x xs ih =>
    simp only [List.map_cons, List.sum_cons, List.length_cons, Int.cast_add,
      Nat.cast_succ]
    have hx : x - 1 < (⌊x⌋ : ℚ) := Int.sub_one_lt_floor x
    linarith

theorem sum_sub_length_lt_sum_map_floor (x : ℚ) (xs : List ℚ) :
    (x :: xs).sum - (x :: xs).length <
      ((((x :: xs).map (fun t => ⌊t⌋)).sum : ℤ) : ℚ) := by
  simp only [List.map_cons, List.sum_cons, List.length_cons, Int.cast_add,
    Nat.cast_succ]
  have hx : x - 1 < (⌊x⌋ : ℚ) := Int.sub_one_lt_floor x
  have hxs := sum_sub_length_le_sum_map_floor xs
  linarith

theorem tempValues_sum (n : ℤ) (ws : List ℚ) (hW : ws.sum ≠ 0) :
    (ws.map (fun w => (n : ℚ) * (w / ws.sum))).sum = n := by
  have h1 : (ws.map (fun w => (n : ℚ) * (w / ws.sum))).sum
      = (n : ℚ) * (ws.map (fun w => w / ws.sum)).sum :=
    List.sum_map_mul_left ws (fun w => w / ws.sum) (n : ℚ)
  have h2 : (ws.map (fun w => w / ws.sum)).sum = ws.sum / ws.sum := by
    simp only [div_eq_mul_inv]
    rw [List.sum_map_mul_right ws (fun w => w) (ws.sum)⁻¹]
    simp
  rw [h1, h2, div_self hW, mul_one]

/-- C1 amended: the rescaled real-valued shares do sum exactly to the
parent value, but what is stored is their per-child `Math.floor`; hence
for every positive integer parent value and positive total weight the
children's stored values sum to at most the parent value and undershoot
it by less than the number of children — exact equality can fail. -/
theorem biharDistrictShares_bounds (n : ℤ) (ws : List ℚ)
    (hn : 0 < n) (hpos : 0 < ws.sum) :
    ((ws.map (fun w => (n : ℚ) * (w / ws.sum))).sum = n) ∧
    (biharDistrictShares (n : ℚ) ws).sum ≤ n ∧
    n - ws.length < (biharDistrictShares (n : ℚ) ws).sum := by
  have hW : ws.sum ≠ 0 := ne_of_gt hpos
  have hts := tempValues_sum n ws hW
  have hn0 : (n : ℚ) ≠ 0 := by exact_mod_cast ne_of_gt hn
  have hshape : biharDistrictShares (n : ℚ) ws =
      (ws.map (fun w => (n : ℚ) * (w / ws.sum))).map (fun t => ⌊t⌋) := by
    simp only [biharDistrictShares, List.map_map, Function.comp_def]
    apply List.map_congr_left
    intro w hw
    rw [hts, div_self hn0, mul_one]
  refine ⟨hts, ?_, ?_⟩
  · have h := sum_map_floor_le (ws.map (fun w => (n : ℚ) * (w / ws.sum)))
    rw [hts] at h
    rw [hshape]
    exact_mod_cast h
  · rcases ws with _ | ⟨x, xs⟩
    · simp at hpos
    · rw [List.map_cons] at hts
      have h := sum_sub_length_lt_sum_map_floor
        ((n : ℚ) * (x / (x :: xs).sum))
        (xs.map (fun w => (n : ℚ) * (w / (x :: xs).sum)))
      rw [hts] at h
      simp only [List.length_cons, List.length_map] at h
      rw [hshape, List.map_cons]
      simp only [List.length_cons]
      exact_mod_cast h

/-- Witness for the amended C1 at parent value 1000 and weights 1, 2: the
real shares sum exactly, the stored sum is at most 1000 and exceeds
998. -/
theorem biharDistrictShares_bounds_witness :
    (([(1 : ℚ), 2].map (fun w =>
      (((1000 : ℤ) : ℚ)) * (w / [(1 : ℚ), 2].sum))).sum = ((1000 : ℤ) : ℚ)) ∧
    (biharDistrictShares ((1000 : ℤ) : ℚ) [1, 2]).sum ≤ 1000 ∧
    (1000 : ℤ) - ([(1 : ℚ), 2].length : ℤ) <
      (biharDistrictShares ((1000 : ℤ) : ℚ) [1, 2]).sum :=
  biharDistrictShares_bounds 1000 [1, 2] (by norm_num)
    (by norm_num [List.sum_cons, List.sum_nil])

end Fishary
